import Mathlib

/-!
Verification development for the web3-bet-bot repository.

Shallow embedding of the core Reconciliation & Opportunity-Detection Engine:
* `calculateArbitrageOpportunity` (ArbitrageEngine) — margin / stake-allocation
  calculator over exact rationals,
* `diceCoefficient`, `findBestMatch`, `hydrateDictionaryByCompositeKey`
  (dictionaryHydration) — bigram fuzzy matcher,
* `runDiscoveryCycle` (main loop) — cycle coordinator with reentrancy guard
  and bet-deduplication set.

JavaScript numbers are modelled as `ℚ`; a JS object field that is present in
some return paths and absent in others is modelled as `Option`; a JS `Set` of
string keys is modelled as a `Finset String` or a `List String`.
-/

/- Batteries marks the `Rat` field operations `@[irreducible]`; restore
kernel-visible reducibility locally so concrete runs of the embedded
functions can be checked by `decide`. -/
attribute [local semireducible] Rat.add Rat.mul Rat.inv Rat.sub

/-- One leg of the arbitrage distribution (an entry of the JS `bestOdds`
array).  In JS the `stake` property is attached in a second pass; before that
pass it is modelled here as `0`. -/
structure Leg where
  outcomeIndex : ℕ
  bookie : String
  effOdd : ℚ
  rawOdd : ℚ
  stake : ℚ
deriving DecidableEq, Repr, Inhabited

/-- Result object of `calculateArbitrageOpportunity`.  Fields that a given JS
return path omits are `none` here (e.g. the success path omits `margin`, the
short-circuit paths omit `legs`). -/
structure ArbResult where
  isArbitrage : Bool
  margin : Option ℚ
  reason : Option String
  matchId : Option String
  profitPercentage : Option ℚ
  minNetProfit : Option ℚ
  legs : Option (List Leg)
  gasCosts : Option ℚ
deriving DecidableEq, Repr

/-- The JS objects `{ isArbitrage: false, margin: 0, reason }` returned by the
short-circuit checks and by the per-outcome loop. -/
def shortCircuitResult (reason : String) : ArbResult :=
  { isArbitrage := false, margin := some 0, reason := some reason,
    matchId := none, profitPercentage := none, minNetProfit := none,
    legs := none, gasCosts := none }

/-- The per-outcome loop of `calculateArbitrageOpportunity` (step 1 in the
source): for each outcome index it computes the effective odds
`raw × (1 − commission)` on both venues, returns early on
`effAzuro === 0 && effDexsport === 0` or on a non-positive best odd, and
otherwise accumulates the leg list, the margin `Σ 1/bestEffOdd` and the
`usesAzuro` / `usesDexsport` routing flags. -/
def bestOddsLoop (oddsA oddsB : List ℚ) (cA cB : ℚ) :
    List ℕ → Except String (List Leg × ℚ × Bool × Bool)
  | [] => Except.ok ([], 0, false, false)
  | i :: rest =>
    let effAzuro := oddsA.getD i 0 * (1 - cA)
    let effDexsport := oddsB.getD i 0 * (1 - cB)
    if effAzuro = 0 ∧ effDexsport = 0 then Except.error "Zero odds on an outcome"
    else
      let bestBookie := if effAzuro > effDexsport then "azuro" else "overtime"
      let bestEffOdd := if effAzuro > effDexsport then effAzuro else effDexsport
      let rawOdd := if effAzuro > effDexsport then oddsA.getD i 0 else oddsB.getD i 0
      if bestEffOdd ≤ 0 then Except.error "Zero odds on best outcome"
      else
        match bestOddsLoop oddsA oddsB cA cB rest with
        | Except.error e => Except.error e
        | Except.ok (legs, m, uA, uB) =>
          Except.ok (⟨i, bestBookie, bestEffOdd, rawOdd, 0⟩ :: legs,
            m + 1 / bestEffOdd,
            (if effAzuro > effDexsport then true else uA),
            (if effAzuro > effDexsport then uB else true))

/-- Embedding of `calculateArbitrageOpportunity` from the ArbitrageEngine
module.  `azuroOddsArray` / `dexsportOddsArray` are `Option` because the JS
guard `!azuroOddsArray || !dexsportOddsArray` tests for a missing array
(an empty array is truthy in JS, so emptiness is only caught by the separate
`azuroOddsArray.length === 0` test). -/
def calculateArbitrageOpportunity (matchId : String)
    (azuroOddsArray dexsportOddsArray : Option (List ℚ))
    (totalInvestment gasFeeA gasFeeB commissionA commissionB : ℚ)
    (isMarketFrozenA isMarketFrozenB : Bool) : ArbResult :=
  if isMarketFrozenA || isMarketFrozenB then
    shortCircuitResult "Market Suspended"
  else
    match azuroOddsArray, dexsportOddsArray with
    | some oddsA, some oddsB =>
      if oddsA.length = 0 then shortCircuitResult "Odds missing"
      else if oddsA.length ≠ oddsB.length then
        shortCircuitResult "Odds array length mismatch"
      else
        match bestOddsLoop oddsA oddsB commissionA commissionB
            (List.range oddsA.length) with
        | Except.error r => shortCircuitResult r
        | Except.ok (legs, margin, usesAzuro, usesDexsport) =>
          if margin ≥ 1 then
            { isArbitrage := false, margin := some margin, reason := none,
              matchId := none, profitPercentage := none, minNetProfit := none,
              legs := none, gasCosts := none }
          else
            let legsWithStakes :=
              legs.map (fun l => { l with stake := totalInvestment * (1 / l.effOdd) / margin })
            let totalGasCost :=
              (if usesAzuro then gasFeeA else 0) + (if usesDexsport then gasFeeB else 0)
            let netReturn := totalInvestment / margin
            let trueNetProfit := netReturn - totalInvestment - totalGasCost
            { isArbitrage := decide (trueNetProfit > 0), margin := none,
              reason := none, matchId := some matchId,
              profitPercentage := some (trueNetProfit / totalInvestment * 100),
              minNetProfit := some trueNetProfit,
              legs := some legsWithStakes, gasCosts := some totalGasCost }
    | _, _ => shortCircuitResult "Odds missing"

/-! ## dictionaryHydration module -/

/-- The consecutive 2-character substrings of a string, as adjacent pairs of
its character list (`s.substring(i, i + 2)` for `i < s.length - 1`). -/
def bigrams (l : List Char) : List (Char × Char) := l.zip l.tail

/-- The second loop of `diceCoefficient`: walk the bigrams of `s2`, and for
each one whose remaining count in the `bigrams1` map is positive, decrement
that count and increment `intersection`. -/
def consumeBigrams : List (Char × Char) → ((Char × Char) → ℕ) → ℕ
  | [], _ => 0
  | b :: rest, counts =>
    if counts b > 0 then
      consumeBigrams rest (fun x => if x = b then counts x - 1 else counts x) + 1
    else
      consumeBigrams rest counts

/-- Embedding of `diceCoefficient`: Dice's coefficient on character bigrams.
The guards mirror the JS source in order: falsy (empty) input, identical
strings, either length below 2, then the multiset bigram overlap. -/
def diceCoefficient (s1 s2 : String) : ℚ :=
  if s1 = "" ∨ s2 = "" then 0
  else if s1 = s2 then 1
  else if s1.length < 2 ∨ s2.length < 2 then 0
  else
    let bigrams1 := bigrams s1.data
    let intersection := consumeBigrams (bigrams s2.data) (fun b => bigrams1.count b)
    2 * (intersection : ℚ) / (((s1.length - 1) + (s2.length - 1) : ℕ) : ℚ)

/-- The `bestMatch` part of `findBestMatch`'s result. -/
structure BestRating where
  target : String
  rating : ℚ
deriving DecidableEq, Repr, Inhabited

/-- Result object of `findBestMatch`. -/
structure BestMatchResult where
  bestMatch : BestRating
  bestMatchIndex : ℕ
deriving DecidableEq, Repr, Inhabited

/-- The loop of `findBestMatch`, carrying `bestRating`, `bestIndex` and
`bestTarget`; only a strictly greater rating replaces the incumbent, so ties
keep the first-seen candidate. -/
def findBestLoop (mainString : String) (bestRating : ℚ) (bestIndex : ℕ)
    (bestTarget : String) : List String → ℕ → ℚ × ℕ × String
  | [], _ => (bestRating, bestIndex, bestTarget)
  | t :: rest, i =>
    let rating := diceCoefficient mainString t
    if rating > bestRating then findBestLoop mainString rating i t rest (i + 1)
    else findBestLoop mainString bestRating bestIndex bestTarget rest (i + 1)

/-- Embedding of `findBestMatch` (initial accumulators `0`, `0`, `''`). -/
def findBestMatch (mainString : String) (targetStrings : List String) :
    BestMatchResult :=
  let r := findBestLoop mainString 0 0 "" targetStrings 0
  { bestMatch := { target := r.2.2, rating := r.1 }, bestMatchIndex := r.2.1 }

/-- An event record as produced by the fetchers and consumed by the matcher
and the main loop.  `startTime` is a Unix timestamp in seconds. -/
structure MarketEvent where
  id : String
  name : String
  sport : String
  startTime : ℚ
  odds : List ℚ
deriving DecidableEq, Repr, Inhabited

/-- An accepted match emitted by `hydrateDictionaryByCompositeKey`. -/
structure MatchedPair where
  eventA : MarketEvent
  eventB : MarketEvent
  confidence : ℚ
deriving DecidableEq, Repr, Inhabited

/-- JS `\s` class restricted to the ASCII whitespace characters. -/
def isJsSpace (c : Char) : Bool :=
  c = ' ' || c = '\t' || c = '\n' || c = '\r' || c.toNat = 11 || c.toNat = 12

/-- `String.prototype.toLowerCase`, modelled characterwise on the string's
character list. -/
def jsToLower (s : String) : String := String.mk (s.data.map Char.toLower)

/-- `String.prototype.trim`: drop leading and trailing whitespace. -/
def jsTrim (l : List Char) : List Char :=
  ((l.dropWhile isJsSpace).reverse.dropWhile isJsSpace).reverse

/-- The `cleanStr` arrow function: lower-case, strip every character outside
`[a-z0-9\s]`, trim. -/
def cleanStr (s : String) : String :=
  String.mk (jsTrim ((s.data.map Char.toLower).filter fun c =>
    (97 ≤ c.toNat && c.toNat ≤ 122) || (48 ≤ c.toNat && c.toNat ≤ 57) ||
      isJsSpace c))

/-- The bucket key `(event.sport || "unknown").toLowerCase()`. -/
def sportKey (e : MarketEvent) : String :=
  jsToLower (if e.sport = "" then "unknown" else e.sport)

/-- One iteration of the Phase-2 loop of `hydrateDictionaryByCompositeKey`
for a single Azuro event.  `targetBySport` is the current per-sport bucket
map; the returned map reflects the in-place `winningTargetEvent.name`
mutation performed on acceptance.

Note the source behaviour embedded faithfully here: `findBestMatch` runs over
`targetNamesMap`, the *filtered* list of cleaned names, but
`winningTargetEvent` is read at the same index in `matchingTargetEvents`, the
*unfiltered* bucket. -/
def processAzuroEvent (targetBySport : String → List MarketEvent)
    (azuroEvent : MarketEvent) :
    Option MatchedPair × (String → List MarketEvent) :=
  let sport := sportKey azuroEvent
  let matchingTargetEvents := targetBySport sport
  if matchingTargetEvents = [] then (none, targetBySport)
  else
    let azuroCleanName := cleanStr azuroEvent.name
    if azuroCleanName.length < 2 then (none, targetBySport)
    else
      let targetNamesMap :=
        (matchingTargetEvents.map fun t => cleanStr t.name).filter
          fun n => 1 < n.length
      if targetNamesMap = [] then (none, targetBySport)
      else
        let result := findBestMatch azuroCleanName targetNamesMap
        if result.bestMatch.rating > 9/20 then
          let winningTargetEvent :=
            matchingTargetEvents.getD result.bestMatchIndex default
          let timeDiffHours :=
            |azuroEvent.startTime - winningTargetEvent.startTime| / 3600
          if timeDiffHours ≤ 36 then
            let renamed := { winningTargetEvent with name := azuroEvent.name }
            (some { eventA := azuroEvent, eventB := renamed,
                    confidence := result.bestMatch.rating },
             fun sp =>
               if sp = sport then
                 (targetBySport sp).set result.bestMatchIndex renamed
               else targetBySport sp)
          else (none, targetBySport)
        else (none, targetBySport)

/-- The Phase-2 loop over all Azuro events, threading the bucket map through
the name-backfill mutations and collecting the emitted pairs. -/
def hydrateLoop (targetBySport : String → List MarketEvent) :
    List MarketEvent → List MatchedPair × (String → List MarketEvent)
  | [] => ([], targetBySport)
  | e :: rest =>
    match processAzuroEvent targetBySport e with
    | (some p, b) =>
      let r := hydrateLoop b rest
      (p :: r.1, r.2)
    | (none, b) => hydrateLoop b rest

/-- Embedding of `hydrateDictionaryByCompositeKey`.  Phase 1 groups the
target events by `sportKey` preserving input order (modelled as a filter);
Phase 2 fuzzy-matches each Azuro event inside its sport bucket. -/
def hydrateDictionaryByCompositeKey
    (azuroEvents targetEvents : List MarketEvent) : List MatchedPair :=
  (hydrateLoop (fun sport => targetEvents.filter fun t => sportKey t == sport)
    azuroEvents).1

/-! ## Main-loop cycle coordinator -/

/-- Result of `getLatestOddsFromContract`. -/
structure LiveOdds where
  isFrozen : Bool
  odds : List ℚ
deriving DecidableEq, Repr, Inhabited

/-- The module-level mutable state of the main loop that survives across
cycles: the reentrancy flag, the previous-cycle identifier snapshots and the
`placedBets` dedup set. -/
structure CoordState where
  isDiscoveryRunning : Bool
  previousAzuroIds : Finset String
  previousOvertimeIds : Finset String
  placedBets : List String
deriving DecidableEq

/-- The external inputs one cycle consumes: discovery fetch results, gas
oracle answers, env-flag configuration and the live-quote collaborators
(keyed by event id). -/
structure CycleInput where
  azuroData : List MarketEvent
  overtimeData : List MarketEvent
  gasPolygon : ℚ
  gasArbitrumRaw : ℚ
  hasPolygonWs : Bool
  hasArbitrumRpc : Bool
  liveAzuroOf : String → LiveOdds
  liveOvertimeOf : String → LiveOdds
  totalInvestment : ℚ

/-- Where (if anywhere) the cycle body throws: during the discovery fetch,
at the gas-oracle call, or while handling the `k`-th matched pair.  The
`try`/`catch`/`finally` of `runDiscoveryCycle` swallows the error and resets
the reentrancy flag. -/
inductive CycleFault where
  | ok : CycleFault
  | atFetch : CycleFault
  | atGas : CycleFault
  | atPair : ℕ → CycleFault
deriving DecidableEq, Repr

/-- Observable work items of one cycle, used to state that a skipped or
reentrant path performs no fetch / match / calculation / execution. -/
inductive CycleAction where
  | fetch : CycleAction
  | matcher : CycleAction
  | gas : CycleAction
  | calc : String → CycleAction
  | execute : String → CycleAction
deriving DecidableEq, Repr

/-- Per-pair evaluation of the Phase-2 loop body: live-odds refinement from
the contract collaborators when the corresponding env flag is set (discovery
odds otherwise), empty refined odds treated as frozen, then
`calculateArbitrageOpportunity` with the hard-coded commissions 0.05 / 0.03.
Returns the result object. -/
def evaluatePair (inp : CycleInput) (gasP gasArb : ℚ) (p : MatchedPair) :
    ArbResult :=
  let liveAzuro :=
    if inp.hasPolygonWs then inp.liveAzuroOf p.eventA.id
    else { isFrozen := false, odds := p.eventA.odds }
  let liveOvertime :=
    if inp.hasArbitrumRpc then inp.liveOvertimeOf p.eventB.id
    else { isFrozen := false, odds := p.eventB.odds }
  let liveAzuro :=
    if liveAzuro.odds = [] then { liveAzuro with isFrozen := true }
    else liveAzuro
  let liveOvertime :=
    if liveOvertime.odds = [] then { liveOvertime with isFrozen := true }
    else liveOvertime
  calculateArbitrageOpportunity p.eventA.name
    (some liveAzuro.odds) (some liveOvertime.odds) inp.totalInvestment
    gasP gasArb (1/20) (3/100) liveAzuro.isFrozen liveOvertime.isFrozen

/-- The Phase-2 loop over matched pairs: dedup check on the composite
`betKey`, evaluation via `evaluatePair`, and on `isArbitrage` execution
hand-off followed by marking the key. -/
def loopPairs (inp : CycleInput) (fault : CycleFault) (gasP gasArb : ℚ) :
    List MatchedPair → ℕ → List String → List String × List CycleAction
  | [], _, bets => (bets, [])
  | p :: rest, k, bets =>
    if fault = CycleFault.atPair k then (bets, [])
    else
      let betKey := p.eventA.id ++ "_" ++ p.eventB.id
      if betKey ∈ bets then loopPairs inp fault gasP gasArb rest (k + 1) bets
      else
        if (evaluatePair inp gasP gasArb p).isArbitrage then
          let r := loopPairs inp fault gasP gasArb rest (k + 1) (betKey :: bets)
          (r.1, CycleAction.calc p.eventA.name :: CycleAction.execute betKey :: r.2)
        else
          let r := loopPairs inp fault gasP gasArb rest (k + 1) bets
          (r.1, CycleAction.calc p.eventA.name :: r.2)

/-- Embedding of `runDiscoveryCycle`.  Returns the post-cycle coordinator
state and the trace of observable work.  The reentrancy guard makes a call
issued while `isDiscoveryRunning` a pure no-op; every non-reentrant call
leaves `isDiscoveryRunning = false` again (the `finally` block), whichever
`CycleFault` the body hits. -/
def runDiscoveryCycle (s : CoordState) (inp : CycleInput) (fault : CycleFault) :
    CoordState × List CycleAction :=
  if s.isDiscoveryRunning then (s, [])
  else if fault = CycleFault.atFetch then
    ({ s with isDiscoveryRunning := false }, [])
  else
    let currentAzuroIds := (inp.azuroData.map (fun e => e.id)).toFinset
    let currentOvertimeIds := (inp.overtimeData.map (fun e => e.id)).toFinset
    let isAzuroIdentical :=
      currentAzuroIds ⊆ s.previousAzuroIds ∧
        currentAzuroIds.card = s.previousAzuroIds.card
    let isOvertimeIdentical :=
      currentOvertimeIds ⊆ s.previousOvertimeIds ∧
        currentOvertimeIds.card = s.previousOvertimeIds.card
    let prevs :=
      if isAzuroIdentical ∧ isOvertimeIdentical ∧
          (inp.azuroData ≠ [] ∨ inp.overtimeData ≠ []) then
        (s.previousAzuroIds, s.previousOvertimeIds)
      else (currentAzuroIds, currentOvertimeIds)
    let matchedPairs :=
      hydrateDictionaryByCompositeKey inp.azuroData inp.overtimeData
    if matchedPairs = [] then
      ({ isDiscoveryRunning := false, previousAzuroIds := prevs.1,
         previousOvertimeIds := prevs.2, placedBets := s.placedBets },
       [CycleAction.fetch, CycleAction.matcher])
    else if fault = CycleFault.atGas then
      ({ isDiscoveryRunning := false, previousAzuroIds := prevs.1,
         previousOvertimeIds := prevs.2, placedBets := s.placedBets },
       [CycleAction.fetch, CycleAction.matcher])
    else
      let gasArb := if inp.gasArbitrumRaw = 0 then (1 : ℚ)/10
        else inp.gasArbitrumRaw
      let r := loopPairs inp fault inp.gasPolygon gasArb matchedPairs 0
        s.placedBets
      ({ isDiscoveryRunning := false, previousAzuroIds := prevs.1,
         previousOvertimeIds := prevs.2, placedBets := r.1 },
       CycleAction.fetch :: CycleAction.matcher :: CycleAction.gas :: r.2)

/-- A sequence of discovery cycles: fold `runDiscoveryCycle` over a list of
per-cycle inputs and fault scenarios, collecting each cycle's trace. -/
def runCycles (s : CoordState) :
    List (CycleInput × CycleFault) → CoordState × List (List CycleAction)
  | [] => (s, [])
  | (inp, f) :: rest =>
    let r := runDiscoveryCycle s inp f
    let r2 := runCycles r.1 rest
    (r2.1, r.2 :: r2.2)

/-! ## Helper lemmas about the calculator -/

/-- Invariants of a successful run of the per-outcome loop: the legs cover
exactly the processed index list, the accumulated margin is the sum of
reciprocal effective odds over the legs, and every leg's effective odds are
strictly positive. -/
theorem bestOddsLoop_ok_invariants {oddsA oddsB : List ℚ} {cA cB : ℚ}
    {idxs : List ℕ} {legs : List Leg} {m : ℚ} {uA uB : Bool}
    (h : bestOddsLoop oddsA oddsB cA cB idxs = Except.ok (legs, m, uA, uB)) :
    legs.map Leg.outcomeIndex = idxs ∧
    m = (legs.map fun l => 1 / l.effOdd).sum ∧
    ∀ l ∈ legs, 0 < l.effOdd := by
  induction idxs generalizing legs m uA uB with
  | nil =>
    simp only [bestOddsLoop, Except.ok.injEq, Prod.mk.injEq] at h
    obtain ⟨rfl, rfl, rfl, rfl⟩ := h
    simp
  | cons i rest ih =>
    simp only [bestOddsLoop] at h
    by_cases hz : oddsA.getD i 0 * (1 - cA) = 0 ∧ oddsB.getD i 0 * (1 - cB) = 0
    · rw [if_pos hz] at h; simp at h
    · rw [if_neg hz] at h
      by_cases hgt : oddsA.getD i 0 * (1 - cA) > oddsB.getD i 0 * (1 - cB)
      · simp only [if_pos hgt] at h
        by_cases hle : oddsA.getD i 0 * (1 - cA) ≤ 0
        · rw [if_pos hle] at h; simp at h
        · rw [if_neg hle] at h
          cases hrec : bestOddsLoop oddsA oddsB cA cB rest with
          | error e => rw [hrec] at h; simp at h
          | ok tup =>
            obtain ⟨legs', m', uA', uB'⟩ := tup
            rw [hrec] at h
            simp only [Except.ok.injEq, Prod.mk.injEq] at h
            obtain ⟨rfl, rfl, rfl, rfl⟩ := h
            obtain ⟨ih1, ih2, ih3⟩ := ih hrec
            refine ⟨by simp [ih1], ?_, ?_⟩
            · simp only [List.map_cons, List.sum_cons]
              rw [← ih2]; ring
            · intro l hl
              rcases List.mem_cons.mp hl with hl | hl
              · subst hl; simpa using lt_of_not_le hle
              · exact ih3 l hl
      · simp only [if_neg hgt] at h
        by_cases hle : oddsB.getD i 0 * (1 - cB) ≤ 0
        · rw [if_pos hle] at h; simp at h
        · rw [if_neg hle] at h
          cases hrec : bestOddsLoop oddsA oddsB cA cB rest with
          | error e => rw [hrec] at h; simp at h
          | ok tup =>
            obtain ⟨legs', m', uA', uB'⟩ := tup
            rw [hrec] at h
            simp only [Except.ok.injEq, Prod.mk.injEq] at h
            obtain ⟨rfl, rfl, rfl, rfl⟩ := h
            obtain ⟨ih1, ih2, ih3⟩ := ih hrec
            refine ⟨by simp [ih1], ?_, ?_⟩
            · simp only [List.map_cons, List.sum_cons]
              rw [← ih2]; ring
            · intro l hl
              rcases List.mem_cons.mp hl with hl | hl
              · subst hl; simpa using lt_of_not_le hle
              · exact ih3 l hl

/-- Venue routing recorded in a successful run of the per-outcome loop: a leg
carries `bookie = "azuro"` exactly when Azuro's effective odds are strictly
greater at its outcome index, and `"overtime"` otherwise (ties included). -/
theorem bestOddsLoop_ok_routing {oddsA oddsB : List ℚ} {cA cB : ℚ}
    {idxs : List ℕ} {legs : List Leg} {m : ℚ} {uA uB : Bool}
    (h : bestOddsLoop oddsA oddsB cA cB idxs = Except.ok (legs, m, uA, uB)) :
    ∀ l ∈ legs,
      (oddsB.getD l.outcomeIndex 0 * (1 - cB) <
        oddsA.getD l.outcomeIndex 0 * (1 - cA) → l.bookie = "azuro") ∧
      (oddsA.getD l.outcomeIndex 0 * (1 - cA) ≤
        oddsB.getD l.outcomeIndex 0 * (1 - cB) → l.bookie = "overtime") := by
  induction idxs generalizing legs m uA uB with
  | nil =>
    simp only [bestOddsLoop, Except.ok.injEq, Prod.mk.injEq] at h
    obtain ⟨rfl, rfl, rfl, rfl⟩ := h
    simp
  | cons i rest ih =>
    simp only [bestOddsLoop] at h
    by_cases hz : oddsA.getD i 0 * (1 - cA) = 0 ∧ oddsB.getD i 0 * (1 - cB) = 0
    · rw [if_pos hz] at h; simp at h
    · rw [if_neg hz] at h
      by_cases hgt : oddsA.getD i 0 * (1 - cA) > oddsB.getD i 0 * (1 - cB)
      · simp only [if_pos hgt] at h
        by_cases hle : oddsA.getD i 0 * (1 - cA) ≤ 0
        · rw [if_pos hle] at h; simp at h
        · rw [if_neg hle] at h
          cases hrec : bestOddsLoop oddsA oddsB cA cB rest with
          | error e => rw [hrec] at h; simp at h
          | ok tup =>
            obtain ⟨legs', m', uA', uB'⟩ := tup
            rw [hrec] at h
            simp only [Except.ok.injEq, Prod.mk.injEq] at h
            obtain ⟨rfl, rfl, rfl, rfl⟩ := h
            intro l hl
            rcases List.mem_cons.mp hl with hl | hl
            · subst hl
              exact ⟨fun _ => rfl, fun hc => absurd hgt (not_lt.mpr hc)⟩
            · exact ih hrec l hl
      · simp only [if_neg hgt] at h
        by_cases hle : oddsB.getD i 0 * (1 - cB) ≤ 0
        · rw [if_pos hle] at h; simp at h
        · rw [if_neg hle] at h
          cases hrec : bestOddsLoop oddsA oddsB cA cB rest with
          | error e => rw [hrec] at h; simp at h
          | ok tup =>
            obtain ⟨legs', m', uA', uB'⟩ := tup
            rw [hrec] at h
            simp only [Except.ok.injEq, Prod.mk.injEq] at h
            obtain ⟨rfl, rfl, rfl, rfl⟩ := h
            intro l hl
            rcases List.mem_cons.mp hl with hl | hl
            · subst hl
              exact ⟨fun hc => absurd hc (not_lt.mpr (not_lt.mp hgt)),
                fun _ => rfl⟩
            · exact ih hrec l hl

/-- Anatomy of a result that carries a `legs` field: the call took the
stake-allocation path, so the per-outcome loop succeeded over
`List.range oddsA.length` with a margin below 1, and the returned legs are
the loop's legs with the stake formula applied. -/
theorem calc_success_shape {matchId : String} {oddsA oddsB : List ℚ}
    {totalInvestment gasFeeA gasFeeB commissionA commissionB : ℚ}
    {frozenA frozenB : Bool} {legs : List Leg}
    (h : (calculateArbitrageOpportunity matchId (some oddsA) (some oddsB)
      totalInvestment gasFeeA gasFeeB commissionA commissionB
      frozenA frozenB).legs = some legs) :
    ∃ legs0 m uA uB,
      bestOddsLoop oddsA oddsB commissionA commissionB
        (List.range oddsA.length) = Except.ok (legs0, m, uA, uB) ∧
      m < 1 ∧ oddsA ≠ [] ∧
      legs = legs0.map
        (fun l => { l with stake := totalInvestment * (1 / l.effOdd) / m }) := by
  simp only [calculateArbitrageOpportunity] at h
  split at h
  · simp [shortCircuitResult] at h
  · split at h
    · simp [shortCircuitResult] at h
    · split at h
      · simp [shortCircuitResult] at h
      · split at h
        · simp [shortCircuitResult] at h
        · rename_i hlen0 _ legs0 m uA uB hloop
          split at h
          · simp at h
          · rename_i hm
            simp only [Option.some.injEq] at h
            refine ⟨legs0, m, uA, uB, hloop, not_le.mp hm, ?_, h.symm⟩
            intro hnil
            subst hnil
            simp_all

/-- C1: whenever `calculateArbitrageOpportunity` reaches the stake-allocation
phase (no short-circuit and `margin < 1`, i.e. the result carries `legs`),
the legs cover every outcome index exactly once, the stakes sum exactly to
`totalInvestment` over exact rational arithmetic, and every leg's payout
`stake × effOdd` equals `totalInvestment / margin` (with
`margin = Σ 1/effOdd` over the legs), independent of the outcome. -/
theorem arb_stake_allocation_covers_and_equalizes
    (matchId : String) (oddsA oddsB : List ℚ)
    (totalInvestment gasFeeA gasFeeB commissionA commissionB : ℚ)
    (frozenA frozenB : Bool) (legs : List Leg)
    (h : (calculateArbitrageOpportunity matchId (some oddsA) (some oddsB)
      totalInvestment gasFeeA gasFeeB commissionA commissionB
      frozenA frozenB).legs = some legs) :
    legs.map Leg.outcomeIndex = List.range oddsA.length ∧
    (legs.map Leg.stake).sum = totalInvestment ∧
    ∀ l ∈ legs, l.stake * l.effOdd =
      totalInvestment / (legs.map fun x => 1 / x.effOdd).sum := by
  obtain ⟨legs0, m, uA, uB, hloop, hm1, hne, rfl⟩ := calc_success_shape h
  obtain ⟨hcov, hsum, hpos⟩ := bestOddsLoop_ok_invariants hloop
  have heffeq : ((legs0.map fun l =>
      ({ l with stake := totalInvestment * (1 / l.effOdd) / m } : Leg)).map
        fun x => 1 / x.effOdd) = legs0.map fun l => 1 / l.effOdd := by
    rw [List.map_map]; rfl
  have hlegs0 : legs0 ≠ [] := by
    intro h0
    rw [h0] at hcov
    simp only [List.map_nil] at hcov
    exact hne (List.length_eq_zero.mp (List.range_eq_nil.mp hcov.symm))
  have hm0 : 0 < m := by
    rw [hsum]
    apply List.sum_pos
    · intro x hx
      obtain ⟨l, hl, rfl⟩ := List.mem_map.mp hx
      exact one_div_pos.mpr (hpos l hl)
    · simpa using hlegs0
  have hmne : m ≠ 0 := ne_of_gt hm0
  refine ⟨?_, ?_, ?_⟩
  · rw [List.map_map]
    exact hcov
  · rw [List.map_map]
    have hfun : ((fun l : Leg => l.stake) ∘ fun l : Leg =>
        ({ l with stake := totalInvestment * (1 / l.effOdd) / m } : Leg)) =
        fun l : Leg => totalInvestment / m * (1 / l.effOdd) := by
      funext l
      show totalInvestment * (1 / l.effOdd) / m =
        totalInvestment / m * (1 / l.effOdd)
      ring
    rw [hfun, List.sum_map_mul_left, ← hsum, div_mul_cancel₀ _ hmne]
  · intro l' hl'
    rw [heffeq, ← hsum]
    obtain ⟨l, hl, rfl⟩ := List.mem_map.mp hl'
    show totalInvestment * (1 / l.effOdd) / m * l.effOdd = totalInvestment / m
    have he : l.effOdd ≠ 0 := (hpos l hl).ne'
    have hrw : totalInvestment * (1 / l.effOdd) / m * l.effOdd =
        totalInvestment * (l.effOdd * (1 / l.effOdd)) / m := by ring
    rw [hrw, mul_one_div, div_self he, mul_one]

/-- Witness for C1 at the spec's two-outcome scenario
(`oddsA = [2.10, 2.00]`, `oddsB = [1.80, 2.30]`, no commissions,
`totalInvestment = 100`): stakes `575/11 ≈ 52.27` and `525/11 ≈ 47.73`. -/
theorem arb_stake_allocation_witness :
    ([⟨0, "azuro", 21/10, 21/10, 575/11⟩,
      ⟨1, "overtime", 23/10, 23/10, 525/11⟩] : List Leg).map Leg.outcomeIndex =
        List.range ([(21:ℚ)/10, 2].length) ∧
    (([⟨0, "azuro", 21/10, 21/10, 575/11⟩,
       ⟨1, "overtime", 23/10, 23/10, 525/11⟩] : List Leg).map Leg.stake).sum =
        100 ∧
    ∀ l ∈ ([⟨0, "azuro", 21/10, 21/10, 575/11⟩,
       ⟨1, "overtime", 23/10, 23/10, 525/11⟩] : List Leg),
      l.stake * l.effOdd =
        100 / (([⟨0, "azuro", 21/10, 21/10, 575/11⟩,
          ⟨1, "overtime", 23/10, 23/10, 525/11⟩] : List Leg).map
            fun x => 1 / x.effOdd).sum :=
  arb_stake_allocation_covers_and_equalizes "m" [21/10, 2] [9/5, 23/10]
    100 0 0 0 0 false false _ (by decide)

/-- C10: in any result of `calculateArbitrageOpportunity` that carries legs,
a leg whose two effective odds are exactly equal is routed to venue B
(`"overtime"`, the Overtime/Dexsport side), and a leg is routed to venue A
(`"azuro"`) only when Azuro's effective odds are strictly greater. -/
theorem arb_tie_routes_to_overtime
    (matchId : String) (oddsA oddsB : List ℚ)
    (totalInvestment gasFeeA gasFeeB commissionA commissionB : ℚ)
    (frozenA frozenB : Bool) (legs : List Leg)
    (h : (calculateArbitrageOpportunity matchId (some oddsA) (some oddsB)
      totalInvestment gasFeeA gasFeeB commissionA commissionB
      frozenA frozenB).legs = some legs) :
    ∀ l ∈ legs,
      (oddsA.getD l.outcomeIndex 0 * (1 - commissionA) =
        oddsB.getD l.outcomeIndex 0 * (1 - commissionB) →
          l.bookie = "overtime") ∧
      (l.bookie = "azuro" →
        oddsB.getD l.outcomeIndex 0 * (1 - commissionB) <
          oddsA.getD l.outcomeIndex 0 * (1 - commissionA)) := by
  obtain ⟨legs0, m, uA, uB, hloop, hm1, hne, rfl⟩ := calc_success_shape h
  have hroute := bestOddsLoop_ok_routing hloop
  intro l' hl'
  obtain ⟨l, hl, rfl⟩ := List.mem_map.mp hl'
  have hr := hroute l hl
  refine ⟨fun heq => hr.2 (le_of_eq heq), fun hb => ?_⟩
  by_contra hlt
  have hov : l.bookie = "overtime" := hr.2 (not_lt.mp hlt)
  have haz : l.bookie = "azuro" := hb
  rw [haz] at hov
  exact absurd hov (by decide)

/-- Witness for C10 at a concrete input with a tied outcome
(`oddsA = [2, 2]`, `oddsB = [2, 2.3]`, no commissions): the tied leg at
outcome 0 routes to `"overtime"`. -/
theorem arb_tie_routes_to_overtime_witness :
    (⟨0, "overtime", 2, 2, 2300/43⟩ : Leg).bookie = "overtime" :=
  (arb_tie_routes_to_overtime "m" [2, 2] [2, 23/10] 100 0 0 0 0 false false
    [⟨0, "overtime", 2, 2, 2300/43⟩, ⟨1, "overtime", 23/10, 23/10, 2000/43⟩]
    (by decide) ⟨0, "overtime", 2, 2, 2300/43⟩ (by decide)).1 (by decide)

/-- C5 counterexample: `oddsA = []`, `oddsB = [2]` is a pair of odds arrays
with mismatched lengths (0 ≠ 1), yet the reported reason is "Odds missing" —
the emptiness check fires before the length-mismatch check, refuting the
claim that every mismatched pair reports "Odds array length mismatch". -/
theorem arb_length_mismatch_counterexample :
    ([] : List ℚ).length ≠ [(2 : ℚ)].length ∧
    (calculateArbitrageOpportunity "m" (some []) (some [2])
      100 0 0 0 0 false false).reason = some "Odds missing" ∧
    (calculateArbitrageOpportunity "m" (some []) (some [2])
      100 0 0 0 0 false false).reason ≠ some "Odds array length mismatch" := by
  decide

/-- C5 (amended): for all pairs of present odds arrays with `oddsA`
non-empty and mismatched lengths, and markets not frozen, the result is
`isArbitrage = false` with reason "Odds array length mismatch", regardless
of the array values; the arrays are not padded or truncated and the error is
a returned result, not an exception. -/
theorem arb_length_mismatch (matchId : String) (oddsA oddsB : List ℚ)
    (totalInvestment gasFeeA gasFeeB commissionA commissionB : ℚ)
    (hne : oddsA ≠ []) (hlen : oddsA.length ≠ oddsB.length) :
    calculateArbitrageOpportunity matchId (some oddsA) (some oddsB)
      totalInvestment gasFeeA gasFeeB commissionA commissionB false false =
      shortCircuitResult "Odds array length mismatch" := by
  simp only [calculateArbitrageOpportunity]
  rw [if_neg (by simp), if_neg (fun h0 => hne (List.length_eq_zero.mp h0)),
    if_pos hlen]

/-- Witness for the amended C5 at `oddsA = [5]`, `oddsB = [2, 3]`. -/
theorem arb_length_mismatch_witness :
    calculateArbitrageOpportunity "m" (some [5]) (some [2, 3])
      100 0 0 0 0 false false =
      shortCircuitResult "Odds array length mismatch" :=
  arb_length_mismatch "m" [5] [2, 3] 100 0 0 0 0 (by decide) (by decide)

/-- C4 counterexample: with both venues reporting the non-positive odds `-1`
on the only outcome (no commissions, markets open, equal lengths), the
reported reason is "Zero odds on best outcome", not "Zero odds on an
outcome": the loop's early check tests `effAzuro === 0 && effDexsport === 0`
and negative odds slip past it to the best-odd check. -/
theorem arb_zero_outcome_counterexample :
    ((-1 : ℚ) ≤ 0) ∧
    (calculateArbitrageOpportunity "m" (some [-1]) (some [-1])
      100 0 0 0 0 false false).reason = some "Zero odds on best outcome" ∧
    (calculateArbitrageOpportunity "m" (some [-1]) (some [-1])
      100 0 0 0 0 false false).reason ≠ some "Zero odds on an outcome" := by
  decide

/-- If the processed index list contains an index at which both effective
odds are exactly zero, and all effective odds on the list are non-negative,
the per-outcome loop reports "Zero odds on an outcome". -/
theorem bestOddsLoop_zero_outcome {oddsA oddsB : List ℚ} {cA cB : ℚ}
    {idxs : List ℕ}
    (hA : ∀ i ∈ idxs, 0 ≤ oddsA.getD i 0 * (1 - cA))
    (hB : ∀ i ∈ idxs, 0 ≤ oddsB.getD i 0 * (1 - cB))
    (hex : ∃ i ∈ idxs, oddsA.getD i 0 * (1 - cA) = 0 ∧
      oddsB.getD i 0 * (1 - cB) = 0) :
    bestOddsLoop oddsA oddsB cA cB idxs =
      Except.error "Zero odds on an outcome" := by
  induction idxs with
  | nil => simp at hex
  | cons i rest ih =>
    by_cases hz : oddsA.getD i 0 * (1 - cA) = 0 ∧ oddsB.getD i 0 * (1 - cB) = 0
    · simp only [bestOddsLoop]
      rw [if_pos hz]
    · obtain ⟨j, hj, hjz⟩ := hex
      have hjrest : j ∈ rest := by
        rcases List.mem_cons.mp hj with rfl | hjr
        · exact absurd hjz hz
        · exact hjr
      have hrest := ih (fun k hk => hA k (List.mem_cons_of_mem i hk))
        (fun k hk => hB k (List.mem_cons_of_mem i hk)) ⟨j, hjrest, hjz⟩
      simp only [bestOddsLoop]
      rw [if_neg hz]
      by_cases hgt : oddsA.getD i 0 * (1 - cA) > oddsB.getD i 0 * (1 - cB)
      · simp only [if_pos hgt]
        have hposA : 0 < oddsA.getD i 0 * (1 - cA) :=
          lt_of_le_of_lt (hB i (List.mem_cons_self i rest)) hgt
        rw [if_neg (not_le.mpr hposA), hrest]
      · simp only [if_neg hgt]
        have hposB : 0 < oddsB.getD i 0 * (1 - cB) := by
          rcases lt_or_eq_of_le (hB i (List.mem_cons_self i rest)) with hlt | heq
          · exact hlt
          · exfalso
            have hAle : oddsA.getD i 0 * (1 - cA) ≤ 0 :=
              le_trans (not_lt.mp hgt) (le_of_eq heq.symm)
            have hA0 : oddsA.getD i 0 * (1 - cA) = 0 :=
              le_antisymm hAle (hA i (List.mem_cons_self i rest))
            exact hz ⟨hA0, heq.symm⟩
        rw [if_neg (not_le.mpr hposB), hrest]

/-- C4 (amended): with markets open, both arrays present, equal lengths,
non-negative raw odds and commissions at most 1, if some outcome index has
both effective odds exactly zero then the result is `isArbitrage = false`
with reason "Zero odds on an outcome" and no stake computation.  (With both
odds merely non-positive — e.g. negative — the code instead reports "Zero
odds on best outcome", see the counterexample.) -/
theorem arb_zero_outcome_reason (matchId : String) (oddsA oddsB : List ℚ)
    (totalInvestment gasFeeA gasFeeB commissionA commissionB : ℚ)
    (hlen : oddsA.length = oddsB.length)
    (hA : ∀ x ∈ oddsA, 0 ≤ x) (hB : ∀ x ∈ oddsB, 0 ≤ x)
    (hcA : commissionA ≤ 1) (hcB : commissionB ≤ 1)
    (hex : ∃ i < oddsA.length, oddsA.getD i 0 * (1 - commissionA) = 0 ∧
      oddsB.getD i 0 * (1 - commissionB) = 0) :
    calculateArbitrageOpportunity matchId (some oddsA) (some oddsB)
      totalInvestment gasFeeA gasFeeB commissionA commissionB false false =
      shortCircuitResult "Zero odds on an outcome" := by
  obtain ⟨i0, hi0, hz0⟩ := hex
  have hgetA : ∀ i ∈ List.range oddsA.length,
      0 ≤ oddsA.getD i 0 * (1 - commissionA) := by
    intro i hi
    have hilt : i < oddsA.length := List.mem_range.mp hi
    have hmem : oddsA.getD i 0 ∈ oddsA := by
      rw [List.getD_eq_getElem?_getD, List.getElem?_eq_getElem hilt]
      exact List.getElem_mem hilt
    exact mul_nonneg (hA _ hmem) (by linarith)
  have hgetB : ∀ i ∈ List.range oddsA.length,
      0 ≤ oddsB.getD i 0 * (1 - commissionB) := by
    intro i hi
    have hilt : i < oddsB.length := hlen ▸ List.mem_range.mp hi
    have hmem : oddsB.getD i 0 ∈ oddsB := by
      rw [List.getD_eq_getElem?_getD, List.getElem?_eq_getElem hilt]
      exact List.getElem_mem hilt
    exact mul_nonneg (hB _ hmem) (by linarith)
  have hloop := bestOddsLoop_zero_outcome hgetA hgetB
    ⟨i0, List.mem_range.mpr hi0, hz0⟩
  have hlen0 : ¬ oddsA.length = 0 := by omega
  simp only [calculateArbitrageOpportunity, hloop]
  rw [if_neg (by simp), if_neg hlen0, if_neg (fun hc => hc hlen)]

/-- Witness for the amended C4 at `oddsA = [2, 0]`, `oddsB = [3, 0]`
(no commissions): outcome index 1 has both effective odds zero. -/
theorem arb_zero_outcome_reason_witness :
    calculateArbitrageOpportunity "m" (some [2, 0]) (some [3, 0])
      100 0 0 0 0 false false =
      shortCircuitResult "Zero odds on an outcome" :=
  arb_zero_outcome_reason "m" [2, 0] [3, 0] 100 0 0 0 0 (by decide)
    (by decide) (by decide) (by decide) (by decide) (by decide)

/-- C2 counterexample: at the spec's own arbitrage scenario (margin < 1, so
the stake-allocation path is taken) the returned object has no `margin`
field at all — refuting the claim that every result carries a numeric
margin. -/
theorem arb_margin_field_counterexample :
    (calculateArbitrageOpportunity "m" (some [21/10, 2]) (some [9/5, 23/10])
      100 0 0 0 0 false false).legs.isSome = true ∧
    (calculateArbitrageOpportunity "m" (some [21/10, 2]) (some [9/5, 23/10])
      100 0 0 0 0 false false).margin = none := by
  decide

/-- C2 (amended): every short-circuited result (one carrying a `reason`)
reports the numeric margin `0`; whenever the computed margin is `≥ 1` the
function returns `isArbitrage = false` together with that numeric margin and
no `reason` string, for any totalInvestment, gas cost or commission; the
stake-allocation (margin < 1) result omits the `margin` field. -/
theorem arb_margin_reporting :
    (∀ (matchId : String) (oddsA? oddsB? : Option (List ℚ))
      (totalInvestment gasFeeA gasFeeB commissionA commissionB : ℚ)
      (frozenA frozenB : Bool),
      (calculateArbitrageOpportunity matchId oddsA? oddsB? totalInvestment
        gasFeeA gasFeeB commissionA commissionB frozenA frozenB).reason.isSome →
      (calculateArbitrageOpportunity matchId oddsA? oddsB? totalInvestment
        gasFeeA gasFeeB commissionA commissionB frozenA frozenB).margin =
        some 0) ∧
    (∀ (matchId : String) (oddsA oddsB : List ℚ)
      (totalInvestment gasFeeA gasFeeB commissionA commissionB : ℚ)
      (legs0 : List Leg) (m : ℚ) (uA uB : Bool),
      oddsA ≠ [] → oddsA.length = oddsB.length →
      bestOddsLoop oddsA oddsB commissionA commissionB
        (List.range oddsA.length) = Except.ok (legs0, m, uA, uB) →
      1 ≤ m →
      (calculateArbitrageOpportunity matchId (some oddsA) (some oddsB)
        totalInvestment gasFeeA gasFeeB commissionA commissionB
        false false).isArbitrage = false ∧
      (calculateArbitrageOpportunity matchId (some oddsA) (some oddsB)
        totalInvestment gasFeeA gasFeeB commissionA commissionB
        false false).margin = some m ∧
      (calculateArbitrageOpportunity matchId (some oddsA) (some oddsB)
        totalInvestment gasFeeA gasFeeB commissionA commissionB
        false false).reason = none) ∧
    (∀ (matchId : String) (oddsA? oddsB? : Option (List ℚ))
      (totalInvestment gasFeeA gasFeeB commissionA commissionB : ℚ)
      (frozenA frozenB : Bool),
      (calculateArbitrageOpportunity matchId oddsA? oddsB? totalInvestment
        gasFeeA gasFeeB commissionA commissionB frozenA frozenB).legs.isSome →
      (calculateArbitrageOpportunity matchId oddsA? oddsB? totalInvestment
        gasFeeA gasFeeB commissionA commissionB frozenA frozenB).margin =
        none) := by
  refine ⟨?_, ?_, ?_⟩
  · intro matchId oddsA? oddsB? T gA gB cA cB fA fB
    simp only [calculateArbitrageOpportunity]
    repeat' split
    all_goals simp [shortCircuitResult]
  · intro matchId oddsA oddsB T gA gB cA cB legs0 m uA uB hne hlen hloop hm
    simp only [calculateArbitrageOpportunity, hloop]
    rw [if_neg (by simp), if_neg (fun h0 => hne (List.length_eq_zero.mp h0)),
      if_neg (fun hc => hc hlen), if_pos hm]
    exact ⟨rfl, rfl, rfl⟩
  · intro matchId oddsA? oddsB? T gA gB cA cB fA fB
    simp only [calculateArbitrageOpportunity]
    repeat' split
    all_goals simp [shortCircuitResult]

/-- Witness for the amended C2 at `oddsA = [1]`, `oddsB = [1]` (margin
exactly 1): `isArbitrage = false`, `margin = some 1`, no reason. -/
theorem arb_margin_reporting_witness :
    (calculateArbitrageOpportunity "m" (some [1]) (some [1])
      100 0 0 0 0 false false).isArbitrage = false ∧
    (calculateArbitrageOpportunity "m" (some [1]) (some [1])
      100 0 0 0 0 false false).margin = some 1 ∧
    (calculateArbitrageOpportunity "m" (some [1]) (some [1])
      100 0 0 0 0 false false).reason = none :=
  arb_margin_reporting.2.1 "m" [1] [1] 100 0 0 0 0
    [⟨0, "overtime", 1, 1, 0⟩] 1 false true (by decide) (by decide)
    (by rfl) (by decide)

/-- Coercion of a `List.erase` (under the product `BEq` instance used when
comparing bigrams) to a `Multiset.erase`. -/
theorem coe_erase_bigrams (bs : List (Char × Char)) (a : Char × Char) :
    ((bs.erase a : List (Char × Char)) : Multiset (Char × Char)) =
      (bs : Multiset (Char × Char)).erase a := by
  induction bs with
  | nil => rfl
  | cons x rest ih =>
    by_cases hxa : x = a
    · subst hxa
      rw [List.erase_cons_head, ← Multiset.cons_coe, Multiset.erase_cons_head]
    · rw [List.erase_cons_tail (by simp [hxa]), ← Multiset.cons_coe,
        ← Multiset.cons_coe, Multiset.erase_cons_tail _ hxa, ih]

/-- The greedy consume-and-decrement loop of `diceCoefficient` computes the
cardinality of the multiset intersection of the two bigram lists. -/
theorem consumeBigrams_eq_card_inter (as bs : List (Char × Char)) :
    consumeBigrams as (fun b => bs.count b) =
      Multiset.card ((as : Multiset (Char × Char)) ∩ (bs : Multiset (Char × Char))) := by
  induction as generalizing bs with
  | nil => simp [consumeBigrams]
  | cons a rest ih =>
    by_cases hmem : a ∈ bs
    · have hpos : bs.count a > 0 := List.count_pos_iff.mpr hmem
      have hdec : (fun x => if x = a then bs.count x - 1 else bs.count x) =
          fun x => (bs.erase a).count x := by
        funext x
        by_cases hx : x = a
        · subst hx; rw [if_pos rfl, List.count_erase_self]
        · rw [if_neg hx, List.count_erase_of_ne hx]
      simp only [consumeBigrams]
      rw [if_pos hpos, hdec, ih (bs.erase a), coe_erase_bigrams,
        ← Multiset.cons_coe,
        Multiset.cons_inter_of_pos _ (Multiset.mem_coe.mpr hmem),
        Multiset.card_cons]
    · simp only [consumeBigrams]
      rw [if_neg (show ¬List.count a bs > 0 from
          fun hc => hmem (List.count_pos_iff.mp hc)), ih bs,
        ← Multiset.cons_coe,
        Multiset.cons_inter_of_neg _ (fun hc => hmem (Multiset.mem_coe.mp hc))]

/-- The bigram consume loop is symmetric in its two bigram lists. -/
theorem consumeBigrams_comm (as bs : List (Char × Char)) :
    consumeBigrams as (fun b => bs.count b) =
      consumeBigrams bs (fun b => as.count b) := by
  rw [consumeBigrams_eq_card_inter, consumeBigrams_eq_card_inter,
    Multiset.inter_comm]

/-- `diceCoefficient` is symmetric in its two arguments. -/
theorem diceCoefficient_comm (a b : String) :
    diceCoefficient a b = diceCoefficient b a := by
  by_cases hab : a = b
  · subst hab; rfl
  · simp only [diceCoefficient]
    by_cases he : a = "" ∨ b = ""
    · rw [if_pos he, if_pos (show b = "" ∨ a = "" from Or.symm he)]
    · rw [if_neg he,
        if_neg (show ¬(b = "" ∨ a = "") from fun hc => he (Or.symm hc)),
        if_neg hab, if_neg (show ¬b = a from fun hc => hab hc.symm)]
      by_cases hl : a.length < 2 ∨ b.length < 2
      · rw [if_pos hl,
          if_pos (show b.length < 2 ∨ a.length < 2 from Or.symm hl)]
      · rw [if_neg hl,
          if_neg (show ¬(b.length < 2 ∨ a.length < 2) from
            fun hc => hl (Or.symm hc)),
          consumeBigrams_comm, Nat.add_comm (a.length - 1) (b.length - 1)]

/-- C6 counterexample: for the identical length-1 inputs `"a"`, `"a"` the
function returns 1, not 0 — the `s1 === s2` shortcut fires before the
length-below-2 guard, refuting "returns 0 whenever either input string has
length < 2". -/
theorem dice_short_string_counterexample :
    ("a" : String).length < 2 ∧ diceCoefficient "a" "a" = 1 ∧
      diceCoefficient "a" "a" ≠ 0 := by
  decide

/-- C6 (amended): the bigram (Dice coefficient) similarity is symmetric;
identical non-empty strings score 1 (regardless of length, including
length 1); and whenever the two inputs differ, either input of length < 2
forces a score of 0. -/
theorem dice_symm_identity_short (a b : String) :
    diceCoefficient a b = diceCoefficient b a ∧
    (a ≠ "" → diceCoefficient a a = 1) ∧
    (a ≠ b → a.length < 2 ∨ b.length < 2 → diceCoefficient a b = 0) := by
  refine ⟨diceCoefficient_comm a b, ?_, ?_⟩
  · intro ha
    simp [diceCoefficient, ha]
  · intro hab hl
    simp only [diceCoefficient]
    by_cases he : a = "" ∨ b = ""
    · rw [if_pos he]
    · rw [if_neg he, if_neg hab, if_pos hl]

/-- Witness for the amended C6 at `a = "ab"`, `b = "x"`. -/
theorem dice_symm_identity_short_witness :
    diceCoefficient "ab" "x" = diceCoefficient "x" "ab" ∧
    diceCoefficient "ab" "ab" = 1 ∧
    diceCoefficient "ab" "x" = 0 :=
  ⟨(dice_symm_identity_short "ab" "x").1,
   (dice_symm_identity_short "ab" "x").2.1 (by decide),
   (dice_symm_identity_short "ab" "x").2.2 (by decide) (Or.inr (by decide))⟩

/-- C3: run of the matcher on a failing input exhibiting the filter/index
misalignment.  The only candidate that survives the cleaned-name length
filter and is scored is the `"t1"` event (cleaned name `"ab"`, score 1), so
the best-scoring candidate is `"t1"`; but `findBestMatch` returns index 0
into the *filtered* name list and the code reads index 0 of the *unfiltered*
bucket, emitting the `"t0"` event (raw name `"!"`, cleaned name too short to
be scored) as `eventB` and overwriting its name.  The emitted pair is
therefore not the best-scoring candidate required by the specification. -/
theorem hydrate_emits_misaligned_candidate :
    hydrateDictionaryByCompositeKey
      [⟨"a1", "ab", "s", 0, []⟩]
      [⟨"t0", "!", "s", 0, []⟩, ⟨"t1", "ab", "s", 0, []⟩] =
      [{ eventA := ⟨"a1", "ab", "s", 0, []⟩,
         eventB := ⟨"t0", "ab", "s", 0, []⟩, confidence := 1 }] := by
  decide

/-- C7: for a source event that reaches the scoring stage (non-empty sport
bucket, cleaned name of length ≥ 2, some candidate names surviving the
filter), the matcher emits a pair exactly when the best rating exceeds 0.45
and the absolute start-time difference with the selected target event, in
hours, is at most 36. -/
theorem matcher_acceptance_iff
    (targetBySport : String → List MarketEvent) (e : MarketEvent)
    (names : List String) (res : BestMatchResult) (w : MarketEvent)
    (hb : targetBySport (sportKey e) ≠ [])
    (hn : ¬(cleanStr e.name).length < 2)
    (hnames : names = ((targetBySport (sportKey e)).map
      fun t => cleanStr t.name).filter fun n => 1 < n.length)
    (ht : names ≠ [])
    (hres : res = findBestMatch (cleanStr e.name) names)
    (hw : w = (targetBySport (sportKey e)).getD res.bestMatchIndex default) :
    (processAzuroEvent targetBySport e).1.isSome = true ↔
      (9/20 < res.bestMatch.rating ∧
        |e.startTime - w.startTime| / 3600 ≤ 36) := by
  subst hnames
  subst hres
  subst hw
  simp only [processAzuroEvent]
  rw [if_neg hb, if_neg hn, if_neg ht]
  by_cases hr : 9/20 < (findBestMatch (cleanStr e.name)
      (((targetBySport (sportKey e)).map fun t => cleanStr t.name).filter
        fun n => 1 < n.length)).bestMatch.rating
  · rw [if_pos hr]
    by_cases htm : |e.startTime - ((targetBySport (sportKey e)).getD
        (findBestMatch (cleanStr e.name)
          (((targetBySport (sportKey e)).map fun t => cleanStr t.name).filter
            fun n => 1 < n.length)).bestMatchIndex default).startTime| /
        3600 ≤ 36
    · rw [if_pos htm]
      exact iff_of_true rfl ⟨hr, htm⟩
    · rw [if_neg htm]
      exact iff_of_false (by simp) fun hc => htm hc.2
  · rw [if_neg hr]
    exact iff_of_false (by simp) fun hc => hr hc.1

/-- Witness for C7 at the hard boundary: identical names (score 1 > 0.45)
and a start-time gap of exactly 129600 seconds = 36.0 hours — the pair is
accepted. -/
theorem matcher_acceptance_iff_witness :
    (processAzuroEvent (fun _ => [⟨"t", "abcd", "s", 129600, []⟩])
      ⟨"a", "abcd", "s", 0, []⟩).1.isSome = true :=
  (matcher_acceptance_iff (fun _ => [⟨"t", "abcd", "s", 129600, []⟩])
    ⟨"a", "abcd", "s", 0, []⟩ ["abcd"] (findBestMatch "abcd" ["abcd"])
    ⟨"t", "abcd", "s", 129600, []⟩ (by decide) (by decide) (by decide)
    (by decide) (by decide) (by decide)).mpr ⟨by decide, by decide⟩

/-- C9: a cycle request issued while a cycle is `Running` is a pure no-op —
no fetch, match, gas, calculation or execution work appears in the trace and
the coordinator state (dedup set, previous-identifier snapshots, running
flag) is returned unchanged; and any cycle started from `Idle`, whether it
completes or faults at the fetch, the gas oracle or any pair, ends with the
running flag cleared (the `finally` block). -/
theorem cycle_reentrancy_and_idle (s : CoordState) (inp : CycleInput)
    (fault : CycleFault) :
    (s.isDiscoveryRunning = true → runDiscoveryCycle s inp fault = (s, [])) ∧
    (s.isDiscoveryRunning = false →
      (runDiscoveryCycle s inp fault).1.isDiscoveryRunning = false) := by
  constructor
  · intro hrun
    simp [runDiscoveryCycle, hrun]
  · intro hidle
    simp only [runDiscoveryCycle]
    rw [if_neg (show ¬s.isDiscoveryRunning = true from by simp [hidle])]
    split
    · rfl
    · split
      · rfl
      · split
        · rfl
        · rfl

/-- Witness for C9: a reentrant request leaves a running coordinator
untouched with an empty trace, and an idle coordinator returns to idle. -/
theorem cycle_reentrancy_and_idle_witness :
    runDiscoveryCycle ⟨true, ∅, ∅, []⟩
      ⟨[], [], 0, 0, false, false, (fun _ => ⟨false, []⟩),
        (fun _ => ⟨false, []⟩), 100⟩ CycleFault.ok = (⟨true, ∅, ∅, []⟩, []) ∧
    (runDiscoveryCycle ⟨false, ∅, ∅, []⟩
      ⟨[], [], 0, 0, false, false, (fun _ => ⟨false, []⟩),
        (fun _ => ⟨false, []⟩), 100⟩ CycleFault.ok).1.isDiscoveryRunning =
      false :=
  ⟨(cycle_reentrancy_and_idle ⟨true, ∅, ∅, []⟩ _ _).1 rfl,
   (cycle_reentrancy_and_idle ⟨false, ∅, ∅, []⟩ _ _).2 rfl⟩

/-- A key already in the dedup set stays in it through the pair loop, and
the loop never emits an execution action for it. -/
theorem loopPairs_dedup (inp : CycleInput) (fault : CycleFault)
    (gasP gasArb : ℚ) (k : String) :
    ∀ (pairs : List MatchedPair) (n : ℕ) (bets : List String), k ∈ bets →
      k ∈ (loopPairs inp fault gasP gasArb pairs n bets).1 ∧
      CycleAction.execute k ∉ (loopPairs inp fault gasP gasArb pairs n bets).2 := by
  intro pairs
  induction pairs with
  | nil =>
    intro n bets hk
    exact ⟨hk, by simp [loopPairs]⟩
  | cons p rest ih =>
    intro n bets hk
    simp only [loopPairs]
    split
    · exact ⟨hk, by simp⟩
    · split
      · exact ih (n + 1) bets hk
      · rename_i hnotin
        have hne : CycleAction.execute k ≠
            CycleAction.execute (p.eventA.id ++ "_" ++ p.eventB.id) := by
          intro he
          exact hnotin (by rw [← CycleAction.execute.inj he]; exact hk)
        split
        · obtain ⟨ih1, ih2⟩ := ih (n + 1)
            ((p.eventA.id ++ "_" ++ p.eventB.id) :: bets)
            (List.mem_cons_of_mem _ hk)
          refine ⟨ih1, ?_⟩
          intro hmem
          rcases List.mem_cons.mp hmem with hc | hmem2
          · exact absurd hc (by simp)
          · rcases List.mem_cons.mp hmem2 with hc | hmem3
            · exact hne hc
            · exact ih2 hmem3
        · obtain ⟨ih1, ih2⟩ := ih (n + 1) bets hk
          refine ⟨ih1, ?_⟩
          intro hmem
          rcases List.mem_cons.mp hmem with hc | hmem2
          · exact absurd hc (by simp)
          · exact ih2 hmem2

/-- A key already in the dedup set survives one discovery cycle and that
cycle never executes it. -/
theorem runDiscoveryCycle_dedup (s : CoordState) (inp : CycleInput)
    (fault : CycleFault) (k : String) (hk : k ∈ s.placedBets) :
    k ∈ (runDiscoveryCycle s inp fault).1.placedBets ∧
    CycleAction.execute k ∉ (runDiscoveryCycle s inp fault).2 := by
  simp only [runDiscoveryCycle]
  split
  · exact ⟨hk, by simp⟩
  · split
    · exact ⟨hk, by simp⟩
    · split
      · exact ⟨hk, by simp⟩
      · split
        · exact ⟨hk, by simp⟩
        · obtain ⟨h1, h2⟩ := loopPairs_dedup inp fault inp.gasPolygon
            (if inp.gasArbitrumRaw = 0 then (1 : ℚ)/10 else inp.gasArbitrumRaw)
            k (hydrateDictionaryByCompositeKey inp.azuroData inp.overtimeData)
            0 s.placedBets hk
          refine ⟨h1, ?_⟩
          intro hmem
          rcases List.mem_cons.mp hmem with hc | hmem2
          · exact absurd hc (by simp)
          · rcases List.mem_cons.mp hmem2 with hc | hmem3
            · exact absurd hc (by simp)
            · rcases List.mem_cons.mp hmem3 with hc | hmem4
              · exact absurd hc (by simp)
              · exact h2 hmem4

/-- C8: once a matched pair's composite bet key is in the dedup set, after
any sequence of later discovery cycles (with arbitrary inputs and faults)
the key is still in the set — every membership check returns true — and no
cycle's trace ever contains an execution hand-off for that key. -/
theorem dedup_marked_key_never_reexecuted (s : CoordState) (k : String)
    (hk : k ∈ s.placedBets) :
    ∀ cycles : List (CycleInput × CycleFault),
      k ∈ (runCycles s cycles).1.placedBets ∧
      ∀ tr ∈ (runCycles s cycles).2, CycleAction.execute k ∉ tr := by
  intro cycles
  induction cycles generalizing s hk with
  | nil => exact ⟨hk, by simp [runCycles]⟩
  | cons c rest ih =>
    obtain ⟨inp, f⟩ := c
    obtain ⟨h1, h2⟩ := runDiscoveryCycle_dedup s inp f k hk
    obtain ⟨ih1, ih2⟩ := ih (runDiscoveryCycle s inp f).1 h1
    refine ⟨ih1, ?_⟩
    intro tr htr
    simp only [runCycles] at htr
    rcases List.mem_cons.mp htr with rfl | htr2
    · exact h2
    · exact ih2 tr htr2

/-- Witness for C8: with `"a_b"` already marked, one trivial cycle keeps it
marked and executes nothing for it. -/
theorem dedup_marked_key_never_reexecuted_witness :
    "a_b" ∈ (runCycles ⟨false, ∅, ∅, ["a_b"]⟩
      [(⟨[], [], 0, 0, false, false, (fun _ => ⟨false, []⟩),
        (fun _ => ⟨false, []⟩), 100⟩, CycleFault.ok)]).1.placedBets ∧
    ∀ tr ∈ (runCycles ⟨false, ∅, ∅, ["a_b"]⟩
      [(⟨[], [], 0, 0, false, false, (fun _ => ⟨false, []⟩),
        (fun _ => ⟨false, []⟩), 100⟩, CycleFault.ok)]).2,
      CycleAction.execute "a_b" ∉ tr :=
  dedup_marked_key_never_reexecuted ⟨false, ∅, ∅, ["a_b"]⟩ "a_b"
    (by simp) _
